import Mathlib

/-!
Shallow embedding of `teqp::algorithms::phase_equil`
(src/include/teqp/algorithms/phase_equil.hpp) in Lean 4.

Modelling conventions:
* `double` scalars are embedded as `ℚ` (exact field arithmetic; the claims
  under study are about the algebraic structure of the assembled residual
  vector and Jacobian, not about floating-point rounding).  Division by zero
  follows the Lean convention `q / 0 = 0`; every claim that divides supplies a
  nonzero hypothesis.
* `Eigen::ArrayXd` becomes `List ℚ`; `Eigen::MatrixXd` / `Eigen::ArrayXXd`
  become `List (List ℚ)` stored by rows.
* Writing a segment of values into a row (`row.segment(off, n) = v`) is
  modelled by `setSegment`, which rebuilds the row with the written window
  replaced and everything else unchanged, exactly as the in-place Eigen write
  behaves for in-bounds writes.
* The real logarithm appearing in `ln f` has no `ℚ` realisation, so the
  development is parametrised by an arbitrary function `qlogf : ℚ → ℚ`; no
  claim depends on any property of the logarithm.
* C++ exceptions become `Except`/`Option` values.  A bare `throw;` statement
  (rethrow with no active exception, i.e. `std::terminate`) is modelled by the
  distinguished error value `TeqpError.bareThrow`, kept distinct from
  `teqp::InvalidArgument` which carries its message string.
-/

namespace PhaseEquil

/-- Sum of a list of rationals, as Eigen's `.sum()`. -/
def qsum (l : List ℚ) : ℚ := l.foldl (fun a b => a + b) 0

/-- The window `x.segment(off, n)` of a vector. -/
def seg (x : List ℚ) (off n : Nat) : List ℚ := (x.drop off).take n

/-- In-place write of the segment `s` into `row` starting at column `off`
(`row.segment(off, s.size()) = s` in Eigen): entries inside the window take
the written values, entries outside keep their previous values. -/
def setSegment (row : List ℚ) (off : Nat) (s : List ℚ) : List ℚ :=
  (List.range row.length).map (fun i =>
    if off ≤ i ∧ i < off + s.length then s.getD (i - off) 0 else row.getD i 0)

/-- In-place write of a single entry (`row(i) = v`). -/
def setEntry (row : List ℚ) (i : Nat) (v : ℚ) : List ℚ := setSegment row i [v]

/-- Errors escaping the phase-equilibrium code: `teqp::InvalidArgument` with
its message, or a bare `throw;` with no active exception (which in C++ calls
`std::terminate`). -/
inductive TeqpError where
  | invalidArgument (msg : String)
  | bareThrow
deriving DecidableEq

/-- The capability interface of the residual Helmholtz model consumed by the
assembler (`teqp::cppinterface::AbstractModel`), restricted to the four
member functions actually called by `phase_equil.hpp`. -/
structure AbstractModel where
  get_R : List ℚ → ℚ
  build_Psir_fgradHessian_autodiff : ℚ → List ℚ → ℚ × List ℚ × List (List ℚ)
  get_Ar10 : ℚ → ℚ → List ℚ → ℚ
  build_d2PsirdTdrhoi_autodiff : ℚ → List ℚ → List ℚ

/-- Read-only bundle handed to the specification equations; the raw pointers
of the C++ struct become plain values (they point into locals of the
enclosing `call`). -/
structure SpecificationSidecar where
  Nphases : Nat
  Ncomponents : Nat
  Nindependent : Nat
  p_phase0 : ℚ
  dpdT_phase0 : ℚ
  dpdrho_phase0 : List ℚ

/-- The four concrete `AbstractSpecification` subclasses, as a closed variant
type (each owns its constant parameters set at construction). -/
inductive Specification where
  | TSpecification (Tspec : ℚ)
  | BetaSpecification (betaspec : ℚ) (iphase : Nat)
  | PSpecification (p : ℚ)
  | MolarVolumeSpecification (vspec_m3mol : ℚ)

/-- Virtual dispatch of `AbstractSpecification::r_Jacobian(x, sidecar)`:
returns the scalar residual and the Jacobian row, each branch translated from
the corresponding `override` in the source. -/
def Specification.r_Jacobian (s : Specification) (x : List ℚ)
    (sidecar : SpecificationSidecar) : ℚ × List ℚ :=
  match s with
  | .TSpecification Tspec =>
      (x.getD 0 0 - Tspec, setEntry (List.replicate x.length 0) 0 1)
  | .BetaSpecification betaspec iphase =>
      (x.getD (x.length - sidecar.Nphases + iphase) 0 - betaspec,
       setEntry (List.replicate x.length 0) (x.length - sidecar.Nphases + iphase) 1)
  | .PSpecification p =>
      (sidecar.p_phase0 - p,
       setSegment (setEntry (List.replicate x.length 0) 0 sidecar.dpdT_phase0)
         1 sidecar.dpdrho_phase0)
  | .MolarVolumeSpecification vspec =>
      let Np := sidecar.Nphases
      let Nc := sidecar.Ncomponents
      let rhovecs := (List.range Np).map (fun ip => seg x (1 + ip * Nc) Nc)
      let rho_phase := rhovecs.map qsum
      let betas := x.drop (x.length - Np)
      let Jrow := (List.range Np).foldl (fun Jrow iphase =>
          setSegment (setEntry Jrow (x.length - Np + iphase) (1 / rho_phase.getD iphase 0))
            (1 + iphase * Nc)
            (List.replicate Nc
              (-(betas.getD iphase 0) / rho_phase.getD iphase 0 / rho_phase.getD iphase 0)))
        (List.replicate x.length 0)
      let v := (List.range Np).foldl
        (fun acc iphase => acc + betas.getD iphase 0 / rho_phase.getD iphase 0) 0
      (v - vspec, Jrow)

/-- The five cached per-phase quantities of the inner struct
`RequiredPhaseDerivatives`. -/
structure RequiredPhaseDerivatives where
  Psir : ℚ
  gradient_Psir : List ℚ
  Hessian_Psir : List (List ℚ)
  d_Psir_dT : ℚ
  d_gradient_Psir_dT : List ℚ
deriving Inhabited

/-- The lambda `calculate_required_derivatives` inside `call`: evaluate the
model at `(T, rhovec)` and derive the two temperature derivatives, with
`d(Psir)/dT = rho*R*(-Ar10(T, rho, rhovec/rho)) + Psir/T`. -/
def calculate_required_derivatives (m : AbstractModel) (R T : ℚ)
    (rhovec : List ℚ) : RequiredPhaseDerivatives :=
  let fgH := m.build_Psir_fgradHessian_autodiff T rhovec
  let rho := qsum rhovec
  { Psir := fgH.1
    gradient_Psir := fgH.2.1
    Hessian_Psir := fgH.2.2
    d_Psir_dT := rho * R * (-(m.get_Ar10 T rho (rhovec.map (fun v => v / rho)))) + fgH.1 / T
    d_gradient_Psir_dT := m.build_d2PsirdTdrhoi_autodiff T rhovec }

/-- The human-facing triple `(T, rhovecs, betas)` used to initialise the
assembler. -/
structure UnpackedVariables where
  T : ℚ
  rhovecs : List (List ℚ)
  betas : List ℚ

/-- The internal scratch buffer `CallResult` of residual vector and Jacobian
matrix. -/
structure CallResult where
  r : List ℚ
  J : List (List ℚ)
deriving DecidableEq

/-- The assembler object: the fields of class `GeneralizedPhaseEquilibrium`
(the `const AbstractModel&` reference becomes an owned value). -/
structure GeneralizedPhaseEquilibrium where
  residptr : AbstractModel
  zbulk : List ℚ
  Ncomponents : Nat
  Nphases : Nat
  Nindependent : Nat
  specifications : List Specification

/-- Private helper `get_Ncomponents`: collect the set of the sizes of the
per-phase concentration arrays; a bare `throw;` when the set is not a
singleton or when the common size is zero, otherwise that common size. -/
def get_Ncomponents (rhovecs : List (List ℚ)) : Except TeqpError Nat :=
  let sizes := (rhovecs.map List.length).dedup
  if sizes.length ≠ 1 then .error .bareThrow
  else
    match sizes with
    | [] => .error .bareThrow
    | size :: _ => if size = 0 then .error .bareThrow else .ok size

/-- The constructor of `GeneralizedPhaseEquilibrium`: the member-initialiser
list evaluates `get_Ncomponents(init.rhovecs)` first (so its bare `throw;`
fires before the body checks), then the body checks the `betas`/`rhovecs`
size match and that exactly two specifications were supplied, each failing
with `teqp::InvalidArgument` and its exact message. -/
def mkGeneralizedPhaseEquilibrium (residmodel : AbstractModel) (zbulk : List ℚ)
    (init : UnpackedVariables) (specifications : List Specification) :
    Except TeqpError GeneralizedPhaseEquilibrium :=
  match get_Ncomponents init.rhovecs with
  | .error e => .error e
  | .ok Ncomponents =>
    if init.betas.length ≠ init.rhovecs.length then
      .error (.invalidArgument "bad sizes for initial betas and rhovecs")
    else if specifications.length ≠ 2 then
      .error (.invalidArgument "specification vector should be of length 2")
    else
      .ok { residptr := residmodel, zbulk := zbulk, Ncomponents := Ncomponents,
            Nphases := init.betas.length,
            Nindependent := 1 + (Ncomponents + 1) * init.betas.length,
            specifications := specifications }

/-- Vector `ln f` of a phase:
`log(rhovec*R*T) + 1/(R*T)*gradient_Psir`, component-wise (`qlogf` stands for
the real logarithm). -/
def lnf_phase (qlogf : ℚ → ℚ) (Nc : Nat) (R T : ℚ) (rhovec : List ℚ)
    (der : RequiredPhaseDerivatives) : List ℚ :=
  (List.range Nc).map (fun k =>
    qlogf (rhovec.getD k 0 * R * T) + 1 / (R * T) * der.gradient_Psir.getD k 0)

/-- Vector `d(ln f)/dT` of a phase:
`1/T + 1/(R*T)*d_gradient_Psir_dT - 1/(R*T*T)*gradient_Psir`. -/
def dlnfdT_phase (Nc : Nat) (R T : ℚ) (der : RequiredPhaseDerivatives) : List ℚ :=
  (List.range Nc).map (fun k =>
    1 / T + 1 / (R * T) * der.d_gradient_Psir_dT.getD k 0
      - 1 / (R * T * T) * der.gradient_Psir.getD k 0)

/-- Matrix `d(ln f)/drho` of a phase: the identity with its diagonal divided
component-wise by `rhovec`, plus `1/(R*T)` times the Psir Hessian. -/
def dlnfdrho_phase (Nc : Nat) (R T : ℚ) (rhovec : List ℚ)
    (der : RequiredPhaseDerivatives) : List (List ℚ) :=
  (List.range Nc).map (fun k =>
    (List.range Nc).map (fun j =>
      (if k = j then 1 / rhovec.getD k 0 else 0)
        + 1 / (R * T) * (der.Hessian_Psir.getD k []).getD j 0))

/-- Pressure of a phase:
`rhovec.sum()*R*T - Psir + (rhovec*gradient_Psir).sum()`. -/
def p_phase (R T : ℚ) (rhovec : List ℚ) (der : RequiredPhaseDerivatives) : ℚ :=
  qsum rhovec * R * T - der.Psir + qsum (List.zipWith (fun a b => a * b) rhovec der.gradient_Psir)

/-- Temperature derivative of the pressure of a phase:
`rhovec.sum()*R - d_Psir_dT + (rhovec*d_gradient_Psir_dT).sum()`. -/
def dpdT_phase (R : ℚ) (rhovec : List ℚ) (der : RequiredPhaseDerivatives) : ℚ :=
  qsum rhovec * R - der.d_Psir_dT
    + qsum (List.zipWith (fun a b => a * b) rhovec der.d_gradient_Psir_dT)

/-- Concentration derivative of the pressure of a phase:
`R*T + (rhovec^T * Hessian_Psir)`, a row vector of length `Nc`. -/
def dpdrho_phase (Nc : Nat) (R T : ℚ) (rhovec : List ℚ)
    (der : RequiredPhaseDerivatives) : List ℚ :=
  (List.range Nc).map (fun j =>
    R * T + qsum ((List.range Nc).map (fun k =>
      rhovec.getD k 0 * (der.Hessian_Psir.getD k []).getD j 0)))

/-- One Jacobian row of a fugacity-equality block (phase 0 versus phase
`iphasei`, component `k` of that block): the temperature entry in column 0,
then the block-selection loop of the source, which runs `iphasej` over
`Ncomp` (not `Nphases`) and writes `dlnfdrho_phase0` for `iphasej == 0` and
`-dlnfdrho_phasei` for every other `iphasej`. -/
def fugacity_Jrow (Nc Nind : Nat) (dlnfdT0 dlnfdTi : List ℚ)
    (dlnfdrho0 dlnfdrhoi : List (List ℚ)) (k : Nat) : List ℚ :=
  (List.range Nc).foldl
    (fun row iphasej =>
      if iphasej = 0 then
        setSegment row (1 + iphasej * Nc) (dlnfdrho0.getD k [])
      else
        setSegment row (1 + iphasej * Nc) ((dlnfdrhoi.getD k []).map (fun v => -v)))
    (setEntry (List.replicate Nind 0) 0 (dlnfdT0.getD k 0 - dlnfdTi.getD k 0))

/-- One Jacobian row of a pressure-equality block (phase 0 versus phase
`iphasei`): temperature entry in column 0, then the block-selection loop of
the source, which runs `iphasej` over `Nphases` and writes `dpdrho_phase0`
for `iphasej == 0` and `-dpdrho_phasei` for every other `iphasej`; no
contribution with respect to the betas. -/
def pressure_Jrow (Nc Np Nind : Nat) (dpdT0 dpdTi : ℚ)
    (dpdrho0 dpdrhoi : List ℚ) : List ℚ :=
  (List.range Np).foldl
    (fun row iphasej =>
      if iphasej = 0 then
        setSegment row (1 + iphasej * Nc) dpdrho0
      else
        setSegment row (1 + iphasej * Nc) (dpdrhoi.map (fun v => -v)))
    (setEntry (List.replicate Nind 0) 0 (dpdT0 - dpdTi))

/-- One Jacobian row of a material balance (component `icomp`): for each
phase, the in-phase mole fraction in the beta column and
`beta*(Kronecker(icomp,icompj) - x_frac)/rho_phase` in the concentration
columns. -/
def material_Jrow (Nc Np Nind : Nat) (rhovecs : List (List ℚ))
    (betas : List ℚ) (icomp : Nat) : List ℚ :=
  (List.range Np).foldl
    (fun row iphase =>
      let rhovec := rhovecs.getD iphase []
      let rho_phase := qsum rhovec
      let row1 := setEntry row (Nind - Np + iphase) (rhovec.getD icomp 0 / rho_phase)
      (List.range Nc).foldl
        (fun row2 icompj =>
          setEntry row2 (1 + iphase * Nc + icompj)
            (betas.getD iphase 0
              * ((if icomp = icompj then 1 else 0) - rhovec.getD icomp 0 / rho_phase)
              / rho_phase))
        row1)
    (List.replicate Nind 0)

/-- The success-path body of `call(x)` after the size check: the residual
vector and Jacobian rows, emitted in the fixed source order (fugacity
equalities, pressure equalities, material balances, fraction-sum row, two
specification rows).  The zero Jacobian entries of the source's `setZero`
appear here as the zero-initialised rows that the block writes leave
untouched. -/
def assemble (qlogf : ℚ → ℚ) (g : GeneralizedPhaseEquilibrium) (x : List ℚ) :
    List ℚ × List (List ℚ) :=
  let Nc := g.Ncomponents
  let Np := g.Nphases
  let Nind := g.Nindependent
  let T := x.getD 0 0
  let rhovecs := (List.range Np).map (fun ip => seg x (1 + ip * Nc) Nc)
  let betas := x.drop (x.length - Np)
  let R := g.residptr.get_R g.zbulk
  let derivatives := (List.range Np).map
    (fun ip => calculate_required_derivatives g.residptr R T (rhovecs.getD ip []))
  let lnf := fun ip => lnf_phase qlogf Nc R T (rhovecs.getD ip []) (derivatives.getD ip default)
  let dlnfdT := fun ip => dlnfdT_phase Nc R T (derivatives.getD ip default)
  let dlnfdrho := fun ip => dlnfdrho_phase Nc R T (rhovecs.getD ip []) (derivatives.getD ip default)
  let pp := fun ip => p_phase R T (rhovecs.getD ip []) (derivatives.getD ip default)
  let dpdT := fun ip => dpdT_phase R (rhovecs.getD ip []) (derivatives.getD ip default)
  let dpdrho := fun ip => dpdrho_phase Nc R T (rhovecs.getD ip []) (derivatives.getD ip default)
  let rFug := ((List.range (Np - 1)).map (fun i0 =>
    (List.range Nc).map (fun k => (lnf 0).getD k 0 - (lnf (i0 + 1)).getD k 0))).flatten
  let JFug := ((List.range (Np - 1)).map (fun i0 =>
    (List.range Nc).map (fun k =>
      fugacity_Jrow Nc Nind (dlnfdT 0) (dlnfdT (i0 + 1))
        (dlnfdrho 0) (dlnfdrho (i0 + 1)) k))).flatten
  let rP := (List.range (Np - 1)).map (fun i0 => pp 0 - pp (i0 + 1))
  let JP := (List.range (Np - 1)).map (fun i0 =>
    pressure_Jrow Nc Np Nind (dpdT 0) (dpdT (i0 + 1)) (dpdrho 0) (dpdrho (i0 + 1)))
  let rMat := (List.range (Nc - 1)).map (fun icomp =>
    (List.range Np).foldl (fun summer iphase =>
      summer + betas.getD iphase 0
        * ((rhovecs.getD iphase []).getD icomp 0 / qsum (rhovecs.getD iphase []))) 0
      - g.zbulk.getD icomp 0)
  let JMat := (List.range (Nc - 1)).map (fun icomp => material_Jrow Nc Np Nind rhovecs betas icomp)
  let rBeta := [qsum betas - 1]
  let JBeta := [setSegment (List.replicate Nind 0) (Nind - Np) (List.replicate Np 1)]
  let sidecar : SpecificationSidecar :=
    { Nphases := Np, Ncomponents := Nc, Nindependent := Nind,
      p_phase0 := pp 0, dpdT_phase0 := dpdT 0, dpdrho_phase0 := dpdrho 0 }
  let specPairs := g.specifications.map (fun s => s.r_Jacobian x sidecar)
  (rFug ++ rP ++ rMat ++ rBeta ++ specPairs.map (fun pr => pr.1),
   JFug ++ JP ++ JMat ++ JBeta ++ specPairs.map (fun pr => pr.2))

/-- The scratch buffers right after `J.setZero(); r.setZero()` at the top of
`call`: an `Nindependent`-vector and an `Nindependent × Nindependent` matrix
of zeros. -/
def zeroCallResult (g : GeneralizedPhaseEquilibrium) : CallResult :=
  { r := List.replicate g.Nindependent 0,
    J := List.replicate g.Nindependent (List.replicate g.Nindependent 0) }

/-- Method `call(x)`: zero the internal buffers (destroying whatever `prev`
held), then check the size of `x` — throwing `teqp::InvalidArgument` with the
exact source message on mismatch, with the buffers already zeroed — and
otherwise fill the buffers with the assembled residual and Jacobian.  The
result pairs the new buffer state with the error, if any. -/
def call (qlogf : ℚ → ℚ) (g : GeneralizedPhaseEquilibrium)
    (prev : CallResult) (x : List ℚ) : CallResult × Option TeqpError :=
  let _ := prev
  if x.length ≠ g.Nindependent then
    (zeroCallResult g,
     some (.invalidArgument ("Wrong size; should be of size" ++ toString g.Nindependent
       ++ "; is of size " ++ toString x.length)))
  else
    let rj := assemble qlogf g x
    ({ r := rj.1, J := rj.2 }, none)

/-- Method `num_Jacobian(x, dx)`: an initial `call(x)` (whose thrown size
error propagates), then for each unknown `i` a step `dx_i` (the entry of `dx`
when nonzero, else `1e-6`), two perturbed calls, and the central-difference
column `(rplus - rminus)/(2*dx_i)`.  The result is the list of the columns of
the returned matrix. -/
def num_Jacobian (qlogf : ℚ → ℚ) (g : GeneralizedPhaseEquilibrium)
    (x dx : List ℚ) : Except TeqpError (List (List ℚ)) :=
  match (call qlogf g (zeroCallResult g) x).2 with
  | some e => .error e
  | none =>
    .ok ((List.range g.Nindependent).map (fun i =>
      let dxi := if dx.getD i 0 ≠ 0 then dx.getD i 0 else 1 / 1000000
      let xplus := x.set i (x.getD i 0 + dxi)
      let xminus := x.set i (x.getD i 0 - dxi)
      let rplus := (call qlogf g (zeroCallResult g) xplus).1.r
      let rminus := (call qlogf g (zeroCallResult g) xminus).1.r
      (List.range g.Nindependent).map (fun k =>
        (rplus.getD k 0 - rminus.getD k 0) / (2 * dxi))))

/-! Indexing lemmas for the write-based row model. -/

theorem setSegment_length (row s : List ℚ) (off : Nat) :
    (setSegment row off s).length = row.length := by
  simp [setSegment]

theorem setEntry_length (row : List ℚ) (i : Nat) (v : ℚ) :
    (setEntry row i v).length = row.length := by
  simp [setEntry, setSegment_length]

theorem setSegment_getD (row s : List ℚ) (off i : Nat) (h : i < row.length) :
    (setSegment row off s).getD i 0 =
      if off ≤ i ∧ i < off + s.length then s.getD (i - off) 0 else row.getD i 0 := by
  rw [setSegment, List.getD_eq_getElem _ _ (by simpa using h)]
  simp

theorem setEntry_getD (row : List ℚ) (p i : Nat) (v : ℚ) (h : i < row.length) :
    (setEntry row p v).getD i 0 = if i = p then v else row.getD i 0 := by
  rw [setEntry, setSegment_getD row [v] p i h]
  by_cases hip : i = p
  · subst hip
    rw [if_pos ⟨Nat.le_refl i, Nat.lt_succ_self i⟩, if_pos rfl]
    simp
  · rw [if_neg (by simp only [List.length_singleton]; omega), if_neg hip]

theorem replicate_getD (n i : Nat) (a : ℚ) (h : i < n) :
    (List.replicate n a).getD i 0 = a := by
  rw [List.getD_eq_getElem _ _ (by simpa using h)]
  simp

theorem replicate_zero_getD (n i : Nat) : (List.replicate n (0 : ℚ)).getD i 0 = 0 := by
  by_cases h : i < n
  · exact replicate_getD n i 0 h
  · rw [List.getD_eq_default _ _ (by simpa using Nat.le_of_not_lt h)]

theorem range_map_getD {α : Type} (f : Nat → α) (n i : Nat) (d : α) (h : i < n) :
    ((List.range n).map f).getD i d = f i := by
  rw [List.getD_eq_getElem _ _ (by simpa using h)]
  simp

theorem map_getD {α β : Type} (f : α → β) (l : List α) (i : Nat) (d : β) (da : α)
    (h : i < l.length) : (l.map f).getD i d = f (l.getD i da) := by
  rw [List.getD_eq_getElem _ _ (by simpa using h), List.getD_eq_getElem _ _ h]
  simp

theorem drop_getD (l : List ℚ) (m i : Nat) (h : m + i < l.length) :
    (l.drop m).getD i 0 = l.getD (m + i) 0 := by
  rw [List.getD_eq_getElem _ _ (by simp [List.length_drop]; omega),
      List.getD_eq_getElem _ _ h]
  simp [List.getElem_drop]

theorem fold_preserves_length {α : Type} (f : List ℚ → α → List ℚ)
    (hf : ∀ r a, (f r a).length = r.length) (l : List α) (b : List ℚ) :
    (l.foldl f b).length = b.length := by
  induction l generalizing b with
  | nil => rfl
  | cons a t ih => rw [List.foldl_cons, ih (f b a), hf]

theorem foldl_range_succ {α : Type} (f : α → Nat → α) (b : α) (n : Nat) :
    (List.range (n + 1)).foldl f b = f ((List.range n).foldl f b) n := by
  rw [List.range_succ, List.foldl_append]
  rfl

theorem foldl_add_range (f : Nat → ℚ) (n : Nat) :
    (List.range n).foldl (fun a i => a + f i) 0 = Finset.sum (Finset.range n) f := by
  induction n with
  | zero => simp
  | succ n ih =>
    rw [foldl_range_succ, Finset.sum_range_succ, ih]

theorem dedup_all_eq {α : Type} [DecidableEq α] (l : List α) (a : α)
    (h : ∀ b ∈ l, b = a) (hne : l ≠ []) : l.dedup = [a] := by
  induction l with
  | nil => exact absurd rfl hne
  | cons x xs ih =>
    have hx : x = a := h x (List.mem_cons_self x xs)
    subst hx
    cases xs with
    | nil => simp
    | cons y ys =>
      have hy : y = x := h y (by simp)
      have hmem : x ∈ y :: ys := by rw [hy]; exact List.mem_cons_self x ys
      rw [List.dedup_cons_of_mem hmem]
      exact ih (fun b hb => h b (List.mem_cons_of_mem x hb)) (by simp)

theorem succ_mul_le (a b c : Nat) (h : a < b) : a * c + c ≤ b * c := by
  calc a * c + c = (a + 1) * c := by ring
  _ ≤ b * c := Nat.mul_le_mul_right c h

theorem flatten_range_map_length {α : Type} (f : Nat → List α) (n c : Nat)
    (hf : ∀ i, (f i).length = c) : ((List.range n).map f).flatten.length = n * c := by
  induction n with
  | zero => simp
  | succ n ih =>
    rw [List.range_succ, List.map_append, List.flatten_append]
    simp only [List.length_append, ih]
    simp [hf]
    ring

/-! Characterisation of the Jacobian-row fold of the molar-volume
specification: length, the temperature entry, the phase-fraction entries and
the concentration entries.  `g1 ip` abstracts the value written at the
phase-fraction column of phase `ip`, `g2 ip` the value broadcast over its
concentration block. -/

theorem mv_fold_length (L Np Nc : Nat) (g1 g2 : Nat → ℚ) (n : Nat) :
    ((List.range n).foldl (fun Jrow ip =>
        setSegment (setEntry Jrow (L - Np + ip) (g1 ip)) (1 + ip * Nc)
          (List.replicate Nc (g2 ip))) (List.replicate L 0)).length = L := by
  rw [fold_preserves_length _ (fun r a => by rw [setSegment_length, setEntry_length]),
      List.length_replicate]

theorem mv_fold_getD_zero (L Np Nc : Nat) (g1 g2 : Nat → ℚ) (n : Nat)
    (hL : L = 1 + Np * Nc + Np) (hn : n ≤ Np) :
    ((List.range n).foldl (fun Jrow ip =>
        setSegment (setEntry Jrow (L - Np + ip) (g1 ip)) (1 + ip * Nc)
          (List.replicate Nc (g2 ip))) (List.replicate L 0)).getD 0 0 = 0 := by
  induction n with
  | zero =>
    simp only [List.range_zero, List.foldl_nil]
    exact replicate_zero_getD L 0
  | succ n ih =>
    rw [foldl_range_succ]
    rw [setSegment_getD _ _ _ _ (by rw [setEntry_length, mv_fold_length]; omega)]
    rw [if_neg (by omega)]
    rw [setEntry_getD _ _ _ _ (by rw [mv_fold_length]; omega)]
    rw [if_neg (by omega)]
    exact ih (by omega)

theorem mv_fold_getD_beta (L Np Nc : Nat) (g1 g2 : Nat → ℚ) (n q : Nat)
    (hL : L = 1 + Np * Nc + Np) (hn : n ≤ Np) (hq : q < n) :
    ((List.range n).foldl (fun Jrow ip =>
        setSegment (setEntry Jrow (L - Np + ip) (g1 ip)) (1 + ip * Nc)
          (List.replicate Nc (g2 ip))) (List.replicate L 0)).getD (L - Np + q) 0
      = g1 q := by
  induction n with
  | zero => omega
  | succ n ih =>
    rw [foldl_range_succ]
    rw [setSegment_getD _ _ _ _ (by rw [setEntry_length, mv_fold_length]; omega)]
    rw [if_neg (by
      simp only [List.length_replicate]
      have hm := succ_mul_le n Np Nc (by omega)
      omega)]
    rw [setEntry_getD _ _ _ _ (by rw [mv_fold_length]; omega)]
    by_cases hqn : q = n
    · subst hqn
      rw [if_pos rfl]
    · rw [if_neg (by omega)]
      exact ih (by omega) (by omega)

theorem mv_fold_getD_conc (L Np Nc : Nat) (g1 g2 : Nat → ℚ) (n q j : Nat)
    (hL : L = 1 + Np * Nc + Np) (hn : n ≤ Np) (hq : q < n) (hj : j < Nc) :
    ((List.range n).foldl (fun Jrow ip =>
        setSegment (setEntry Jrow (L - Np + ip) (g1 ip)) (1 + ip * Nc)
          (List.replicate Nc (g2 ip))) (List.replicate L 0)).getD (1 + q * Nc + j) 0
      = g2 q := by
  induction n with
  | zero => omega
  | succ n ih =>
    have hqNp := succ_mul_le q Np Nc (by omega)
    rw [foldl_range_succ]
    rw [setSegment_getD _ _ _ _ (by rw [setEntry_length, mv_fold_length]; omega)]
    by_cases hqn : q = n
    · subst hqn
      rw [if_pos (by simp only [List.length_replicate]; omega)]
      have hsub : 1 + q * Nc + j - (1 + q * Nc) = j := by omega
      rw [hsub, replicate_getD _ _ _ hj]
    · have hqn2 := succ_mul_le q n Nc (by omega)
      rw [if_neg (by simp only [List.length_replicate]; omega)]
      rw [setEntry_getD _ _ _ _ (by rw [mv_fold_length]; omega)]
      rw [if_neg (by omega)]
      exact ih (by omega) (by omega)

/-- C7: for every `x` and sidecar with consistent `Nphases`/`Ncomponents` and
nonzero per-phase total concentrations, the molar-volume specification's
`r_Jacobian` returns residual `(sum over phases of beta_phase/rho_phase) -
vspec` and a Jacobian row holding `1/rho_phase` at each phase-fraction
position, `-beta_phase/rho_phase^2` at every concentration position of that
phase, and `0` at the temperature position (index 0). -/
theorem molar_volume_r_Jacobian_correct (vstar : ℚ) (sc : SpecificationSidecar)
    (x : List ℚ) (ip j : Nat)
    (hlen : x.length = 1 + (sc.Ncomponents + 1) * sc.Nphases)
    (hip : ip < sc.Nphases) (hj : j < sc.Ncomponents)
    (hrho : ∀ q, q < sc.Nphases →
      qsum (seg x (1 + q * sc.Ncomponents) sc.Ncomponents) ≠ 0) :
    (Specification.r_Jacobian (.MolarVolumeSpecification vstar) x sc).1
      = Finset.sum (Finset.range sc.Nphases) (fun q =>
          x.getD (x.length - sc.Nphases + q) 0
            / qsum (seg x (1 + q * sc.Ncomponents) sc.Ncomponents)) - vstar
    ∧ (Specification.r_Jacobian (.MolarVolumeSpecification vstar) x sc).2.getD 0 0 = 0
    ∧ (Specification.r_Jacobian (.MolarVolumeSpecification vstar) x sc).2.getD
        (x.length - sc.Nphases + ip) 0
        = 1 / qsum (seg x (1 + ip * sc.Ncomponents) sc.Ncomponents)
    ∧ (Specification.r_Jacobian (.MolarVolumeSpecification vstar) x sc).2.getD
        (1 + ip * sc.Ncomponents + j) 0
        = -(x.getD (x.length - sc.Nphases + ip) 0
            / qsum (seg x (1 + ip * sc.Ncomponents) sc.Ncomponents) ^ 2) := by
  have hL : x.length = 1 + sc.Nphases * sc.Ncomponents + sc.Nphases := by
    rw [hlen]; ring
  have hrhoD : ∀ q, q < sc.Nphases →
      (((List.range sc.Nphases).map
          (fun ip2 => seg x (1 + ip2 * sc.Ncomponents) sc.Ncomponents)).map qsum).getD q 0
        = qsum (seg x (1 + q * sc.Ncomponents) sc.Ncomponents) := by
    intro q hq
    rw [List.map_map, range_map_getD _ _ _ _ hq]
    rfl
  have hbeta : ∀ q, q < sc.Nphases →
      (x.drop (x.length - sc.Nphases)).getD q 0
        = x.getD (x.length - sc.Nphases + q) 0 := by
    intro q hq
    exact drop_getD x _ q (by omega)
  simp only [Specification.r_Jacobian]
  refine ⟨?_, ?_, ?_, ?_⟩
  · have h1 := foldl_add_range (fun q =>
      (x.drop (x.length - sc.Nphases)).getD q 0
        / (((List.range sc.Nphases).map
            (fun ip2 => seg x (1 + ip2 * sc.Ncomponents) sc.Ncomponents)).map qsum).getD q 0)
      sc.Nphases
    rw [h1]
    congr 1
    exact Finset.sum_congr rfl (fun q hq => by
      rw [hbeta q (Finset.mem_range.mp hq), hrhoD q (Finset.mem_range.mp hq)])
  · exact mv_fold_getD_zero x.length sc.Nphases sc.Ncomponents
      (fun q => 1 / (((List.range sc.Nphases).map
          (fun ip2 => seg x (1 + ip2 * sc.Ncomponents) sc.Ncomponents)).map qsum).getD q 0)
      (fun q => -((x.drop (x.length - sc.Nphases)).getD q 0)
          / (((List.range sc.Nphases).map
              (fun ip2 => seg x (1 + ip2 * sc.Ncomponents) sc.Ncomponents)).map qsum).getD q 0
          / (((List.range sc.Nphases).map
              (fun ip2 => seg x (1 + ip2 * sc.Ncomponents) sc.Ncomponents)).map qsum).getD q 0)
      sc.Nphases hL (le_refl _)
  · have h3 := mv_fold_getD_beta x.length sc.Nphases sc.Ncomponents
      (fun q => 1 / (((List.range sc.Nphases).map
          (fun ip2 => seg x (1 + ip2 * sc.Ncomponents) sc.Ncomponents)).map qsum).getD q 0)
      (fun q => -((x.drop (x.length - sc.Nphases)).getD q 0)
          / (((List.range sc.Nphases).map
              (fun ip2 => seg x (1 + ip2 * sc.Ncomponents) sc.Ncomponents)).map qsum).getD q 0
          / (((List.range sc.Nphases).map
              (fun ip2 => seg x (1 + ip2 * sc.Ncomponents) sc.Ncomponents)).map qsum).getD q 0)
      sc.Nphases ip hL (le_refl _) hip
    dsimp only at h3
    rw [hrhoD ip hip] at h3
    exact h3
  · have h4 := mv_fold_getD_conc x.length sc.Nphases sc.Ncomponents
      (fun q => 1 / (((List.range sc.Nphases).map
          (fun ip2 => seg x (1 + ip2 * sc.Ncomponents) sc.Ncomponents)).map qsum).getD q 0)
      (fun q => -((x.drop (x.length - sc.Nphases)).getD q 0)
          / (((List.range sc.Nphases).map
              (fun ip2 => seg x (1 + ip2 * sc.Ncomponents) sc.Ncomponents)).map qsum).getD q 0
          / (((List.range sc.Nphases).map
              (fun ip2 => seg x (1 + ip2 * sc.Ncomponents) sc.Ncomponents)).map qsum).getD q 0)
      sc.Nphases ip j hL (le_refl _) hip hj
    dsimp only at h4
    rw [hbeta ip hip, hrhoD ip hip] at h4
    rw [h4, pow_two]
    ring

/-- C8: for every valid pair `Ncomponents ≥ 1`, `Nphases ≥ 1`, the row-group
counts emitted by `call` — `Ncomponents*(Nphases-1)` fugacity rows,
`Nphases-1` pressure rows, `Ncomponents-1` material-balance rows, one
fraction-sum row and two specification rows — add up to `Nindependent`, and
the assembled residual vector has exactly `Nindependent` entries. -/
theorem row_count_identity (qlogf : ℚ → ℚ) (g : GeneralizedPhaseEquilibrium)
    (x : List ℚ) (hNc : 1 ≤ g.Ncomponents) (hNp : 1 ≤ g.Nphases)
    (hNind : g.Nindependent = 1 + (g.Ncomponents + 1) * g.Nphases)
    (hspec : g.specifications.length = 2) :
    g.Ncomponents * (g.Nphases - 1) + (g.Nphases - 1) + (g.Ncomponents - 1) + 1 + 2
      = g.Nindependent
    ∧ (assemble qlogf g x).1.length = g.Nindependent := by
  obtain ⟨m, hm⟩ : ∃ m, g.Nphases = m + 1 := ⟨g.Nphases - 1, by omega⟩
  obtain ⟨c, hc⟩ : ∃ c, g.Ncomponents = c + 1 := ⟨g.Ncomponents - 1, by omega⟩
  constructor
  · rw [hNind, hm, hc]
    simp only [Nat.add_sub_cancel]
    ring
  · simp only [assemble]
    rw [List.length_append, List.length_append, List.length_append, List.length_append]
    rw [flatten_range_map_length _ _ g.Ncomponents (fun i => by simp)]
    simp only [List.length_map, List.length_range, List.length_cons, List.length_nil, hspec]
    rw [hNind, hm, hc]
    simp only [Nat.add_sub_cancel]
    ring

/-- C4: calling `call` with an `x` of any wrong size fails with
`teqp::InvalidArgument` whose message reports both the expected size
(`Nindependent`) and the actual size of `x`. -/
theorem call_wrong_size_error (qlogf : ℚ → ℚ) (g : GeneralizedPhaseEquilibrium)
    (prev : CallResult) (x : List ℚ)
    (hNind : g.Nindependent = 1 + (g.Ncomponents + 1) * g.Nphases)
    (h : x.length ≠ g.Nindependent) :
    (call qlogf g prev x).2 = some (.invalidArgument
      ("Wrong size; should be of size" ++ toString g.Nindependent
        ++ "; is of size " ++ toString x.length)) := by
  simp only [call]
  rw [if_pos h]

/-- C10: a `call` that fails the size check has already zeroed the internal
residual and Jacobian buffers (the `setZero` calls precede the check), so
whatever the previous state `prev` held is destroyed: the resulting state is
the all-zero buffer state, for every `prev`. -/
theorem call_wrong_size_zeroes_state (qlogf : ℚ → ℚ)
    (g : GeneralizedPhaseEquilibrium) (prev : CallResult) (x : List ℚ)
    (h : x.length ≠ g.Nindependent) :
    (call qlogf g prev x).1 = zeroCallResult g
    ∧ (call qlogf g prev x).2 ≠ none := by
  constructor
  · simp only [call]
    rw [if_pos h]
  · simp only [call]
    rw [if_pos h]
    simp

/-- C6: `call` does not leak state between invocations: calling with `x1` and
then with `x2` leaves exactly the state that a single call with `x2` from any
fresh buffer state produces (the buffers are zeroed unconditionally on
entry). -/
theorem call_no_state_leak (qlogf : ℚ → ℚ) (g : GeneralizedPhaseEquilibrium)
    (prev fresh : CallResult) (x1 x2 : List ℚ)
    (h1 : x1.length = g.Nindependent) (h2 : x2.length = g.Nindependent) :
    call qlogf g (call qlogf g prev x1).1 x2 = call qlogf g fresh x2 := rfl

/-- C5: with consistent, non-empty per-phase concentration arrays,
construction fails with `teqp::InvalidArgument` when `betas` and `rhovecs`
have different lengths, and likewise when the specification list does not
have length exactly 2. -/
theorem construction_size_checks (residmodel : AbstractModel) (zbulk : List ℚ)
    (init : UnpackedVariables) (specs : List Specification) (s : Nat)
    (hcons : ∀ rv ∈ init.rhovecs, rv.length = s) (hs : s ≠ 0)
    (hne : init.rhovecs ≠ []) :
    (init.betas.length ≠ init.rhovecs.length →
      mkGeneralizedPhaseEquilibrium residmodel zbulk init specs
        = .error (.invalidArgument "bad sizes for initial betas and rhovecs"))
    ∧ (init.betas.length = init.rhovecs.length → specs.length ≠ 2 →
      mkGeneralizedPhaseEquilibrium residmodel zbulk init specs
        = .error (.invalidArgument "specification vector should be of length 2")) := by
  have hded : (init.rhovecs.map List.length).dedup = [s] := by
    apply dedup_all_eq
    · intro b hb
      obtain ⟨rv, hrv, hbe⟩ := List.mem_map.mp hb
      rw [← hbe]
      exact hcons rv hrv
    · simpa using hne
  have hget : get_Ncomponents init.rhovecs = .ok s := by
    simp only [get_Ncomponents, hded]
    simp [hs]
  constructor
  · intro hbl
    simp only [mkGeneralizedPhaseEquilibrium, hget]
    rw [if_pos hbl]
  · intro hbl hsp
    simp only [mkGeneralizedPhaseEquilibrium, hget]
    rw [if_neg (by omega), if_pos hsp]

/-- C9: for every valid `x` and step array `dx` of length `Nindependent`,
`num_Jacobian` succeeds and its column `i` is the central difference
`(r(x + dx_i*e_i) - r(x - dx_i*e_i)) / (2*dx_i)`, where `r(y)` is the
residual produced by `call(y)` (from any buffer state `s`) and `dx_i` falls
back to `1e-6` when the entry of `dx` is zero. -/
theorem num_Jacobian_central_difference (qlogf : ℚ → ℚ)
    (g : GeneralizedPhaseEquilibrium) (s : CallResult) (x dx : List ℚ)
    (hx : x.length = g.Nindependent) (hdx : dx.length = g.Nindependent) :
    num_Jacobian qlogf g x dx = .ok ((List.range g.Nindependent).map (fun i =>
      let dxi := if dx.getD i 0 ≠ 0 then dx.getD i 0 else 1 / 1000000
      let rplus := (call qlogf g s (x.set i (x.getD i 0 + dxi))).1.r
      let rminus := (call qlogf g s (x.set i (x.getD i 0 - dxi))).1.r
      (List.range g.Nindependent).map (fun k =>
        (rplus.getD k 0 - rminus.getD k 0) / (2 * dxi)))) := by
  have hcallr : ∀ (s2 : CallResult) (y : List ℚ), y.length = g.Nindependent →
      (call qlogf g s2 y).1.r = (assemble qlogf g y).1 := by
    intro s2 y hy
    simp only [call]
    rw [if_neg (by omega)]
  have h2 : (call qlogf g (zeroCallResult g) x).2 = none := by
    simp only [call]
    rw [if_neg (by omega)]
  rw [num_Jacobian, h2]
  refine congrArg Except.ok (List.map_congr_left (fun i hi => ?_))
  have hset : ∀ v : ℚ, (x.set i v).length = g.Nindependent := by
    intro v
    rw [List.length_set, hx]
  dsimp only
  rw [hcallr (zeroCallResult g) _ (hset _), hcallr (zeroCallResult g) _ (hset _),
      hcallr s _ (hset _), hcallr s _ (hset _)]

/-- A minimal two-component residual model with identically zero residual
Helmholtz energy and gas constant 1, used for the concrete three-phase
Jacobian evaluations: all fugacity and pressure derivatives then reduce to
their ideal parts, which are nonzero and phase-distinguishable. -/
def zeroModel2 : AbstractModel :=
  { get_R := fun _ => 1
    build_Psir_fgradHessian_autodiff := fun _ _ => (0, [0, 0], [[0, 0], [0, 0]])
    get_Ar10 := fun _ _ _ => 0
    build_d2PsirdTdrhoi_autodiff := fun _ _ => [0, 0] }

/-- A three-phase, two-component assembler over `zeroModel2`, with the fields
the constructor derives (`Nindependent = 1 + (2+1)*3 = 10`). -/
def gpe23 : GeneralizedPhaseEquilibrium :=
  { residptr := zeroModel2, zbulk := [1/2, 1/2], Ncomponents := 2, Nphases := 3,
    Nindependent := 10,
    specifications := [.TSpecification 1, .PSpecification 1] }

/-- Concrete unknown vector for the three-phase evaluations: `T = 1`, phase
concentrations `[1,1]`, `[1,1]`, `[1/2,1/2]`, phase fractions `[1,0,0]`. -/
def x23 : List ℚ := [1, 1, 1, 1, 1, 1/2, 1/2, 1, 0, 0]

/-- The Jacobian assembled by `call` at `x23` (row layout: fugacity rows 0-3,
pressure rows 4-5, material balance row 6, fraction-sum row 7, specification
rows 8-9; columns: 0 = T, 1-2/3-4/5-6 = concentration blocks of phases
0/1/2, 7-9 = phase fractions). -/
def J23 : List (List ℚ) := (call (fun _ => 0) gpe23 (zeroCallResult gpe23) x23).1.J

/-- C1 (evaluation at the failing input): in the fugacity row for phase pair
(0,2), component 0 — row 2 of `J23` — the claim requires phase 1's
concentration block to be zero and phase 2's block to hold
`-d(ln f_2)/drho`, whose (0,0) entry here is `-2` (since `rho_{2,0} = 1/2`).
The code instead writes `-2` into phase 1's block (column 3) and leaves
phase 2's block zero (column 5): the block loop runs over `Ncomp` instead of
`Nphases` and selects `-dlnfdrho_phasei` for every nonzero block index. -/
theorem fugacity_row_blocks_misplaced :
    (J23.getD 2 []).getD 3 0 = -2 ∧ (J23.getD 2 []).getD 5 0 = 0
    ∧ ¬((J23.getD 2 []).getD 3 0 = 0 ∧ (J23.getD 2 []).getD 5 0 = -2) := by
  have e3 : (J23.getD 2 []).getD 3 0 = -2 := by with_unfolding_all rfl
  have e5 : (J23.getD 2 []).getD 5 0 = 0 := by with_unfolding_all rfl
  refine ⟨e3, e5, ?_⟩
  rintro ⟨h0, h2⟩
  rw [e3] at h0
  norm_num at h0

/-- C2 (evaluation at the failing input): in the pressure row for phase pair
(0,1) — row 4 of `J23` — the claim requires phase 2's concentration block to
be zero, but the code writes `-dP_1/drho` (here `-[1,1]`) into every block
with nonzero index, so column 5 holds `-1`.  The phase-fraction entries
(columns 7-9) are zero as claimed. -/
theorem pressure_row_blocks_nonzero :
    (J23.getD 4 []).getD 5 0 = -1 ∧ ¬((J23.getD 4 []).getD 5 0 = 0)
    ∧ (J23.getD 4 []).getD 7 0 = 0 ∧ (J23.getD 4 []).getD 8 0 = 0
    ∧ (J23.getD 4 []).getD 9 0 = 0 := by
  have e5 : (J23.getD 4 []).getD 5 0 = -1 := by with_unfolding_all rfl
  refine ⟨e5, ?_, by with_unfolding_all rfl, by with_unfolding_all rfl,
    by with_unfolding_all rfl⟩
  intro h0
  rw [e5] at h0
  norm_num at h0

/-- C3 (evaluation at the failing input): constructing with per-phase
concentration arrays of sizes 2 and 1 fails through the bare `throw;` of
`get_Ncomponents` — in C++ a rethrow with no active exception, i.e.
`std::terminate` — and not through a descriptive `teqp::InvalidArgument`. -/
theorem inconsistent_rhovec_sizes_bare_throw :
    mkGeneralizedPhaseEquilibrium zeroModel2 [1]
      { T := 300, rhovecs := [[1, 2], [3]], betas := [1/2, 1/2] }
      [.TSpecification 300, .PSpecification 101325]
      = .error .bareThrow := rfl

/-- A one-component residual model with identically zero residual Helmholtz
energy and gas constant 1, for the single-phase witnesses. -/
def zeroModel1 : AbstractModel :=
  { get_R := fun _ => 1
    build_Psir_fgradHessian_autodiff := fun _ _ => (0, [0], [[0]])
    get_Ar10 := fun _ _ _ => 0
    build_d2PsirdTdrhoi_autodiff := fun _ _ => [0] }

/-- A one-phase, one-component assembler over `zeroModel1`
(`Nindependent = 1 + (1+1)*1 = 3`). -/
def gpe11 : GeneralizedPhaseEquilibrium :=
  { residptr := zeroModel1, zbulk := [1], Ncomponents := 1, Nphases := 1,
    Nindependent := 3,
    specifications := [.TSpecification 1, .BetaSpecification 1 0] }

/-- Concrete sidecar for the molar-volume witness: two phases, one
component (the cached pressure fields are not read by this variant). -/
def sc7 : SpecificationSidecar :=
  { Nphases := 2, Ncomponents := 1, Nindependent := 5,
    p_phase0 := 0, dpdT_phase0 := 0, dpdrho_phase0 := [0] }

/-- Concrete unknown vector for the molar-volume witness: `T = 1`, phase
concentrations `[2]` and `[4]`, phase fractions `[1/2, 1/2]`. -/
def x7 : List ℚ := [1, 2, 4, 1/2, 1/2]

/-- Witness for C7 at `sc7`, `x7`, phase 1, component 0. -/
theorem molar_volume_r_Jacobian_witness :
    x7.length = 1 + (sc7.Ncomponents + 1) * sc7.Nphases
    ∧ ((Specification.r_Jacobian (.MolarVolumeSpecification 1) x7 sc7).1
        = Finset.sum (Finset.range sc7.Nphases) (fun q =>
            x7.getD (x7.length - sc7.Nphases + q) 0
              / qsum (seg x7 (1 + q * sc7.Ncomponents) sc7.Ncomponents)) - 1
      ∧ (Specification.r_Jacobian (.MolarVolumeSpecification 1) x7 sc7).2.getD 0 0 = 0
      ∧ (Specification.r_Jacobian (.MolarVolumeSpecification 1) x7 sc7).2.getD
          (x7.length - sc7.Nphases + 1) 0
          = 1 / qsum (seg x7 (1 + 1 * sc7.Ncomponents) sc7.Ncomponents)
      ∧ (Specification.r_Jacobian (.MolarVolumeSpecification 1) x7 sc7).2.getD
          (1 + 1 * sc7.Ncomponents + 0) 0
          = -(x7.getD (x7.length - sc7.Nphases + 1) 0
              / qsum (seg x7 (1 + 1 * sc7.Ncomponents) sc7.Ncomponents) ^ 2)) :=
  ⟨by decide,
   molar_volume_r_Jacobian_correct 1 sc7 x7 1 0 (by decide) (by decide) (by decide)
    (by
      intro q hq
      rw [show sc7.Nphases = 2 from rfl] at hq
      have h2 : q = 0 ∨ q = 1 := by omega
      rcases h2 with rfl | rfl
      · rw [show qsum (seg x7 (1 + 0 * sc7.Ncomponents) sc7.Ncomponents) = 2 from by
          with_unfolding_all rfl]
        norm_num
      · rw [show qsum (seg x7 (1 + 1 * sc7.Ncomponents) sc7.Ncomponents) = 4 from by
          with_unfolding_all rfl]
        norm_num)⟩

/-- Witness for C8 at the three-phase, two-component assembler `gpe23`. -/
theorem row_count_identity_witness :
    1 ≤ gpe23.Ncomponents ∧ 1 ≤ gpe23.Nphases
    ∧ gpe23.Nindependent = 1 + (gpe23.Ncomponents + 1) * gpe23.Nphases
    ∧ gpe23.specifications.length = 2
    ∧ (gpe23.Ncomponents * (gpe23.Nphases - 1) + (gpe23.Nphases - 1)
        + (gpe23.Ncomponents - 1) + 1 + 2 = gpe23.Nindependent
      ∧ (assemble (fun q => q) gpe23 x23).1.length = gpe23.Nindependent) :=
  ⟨by decide, by decide, by decide, by decide,
   row_count_identity (fun q => q) gpe23 x23 (by decide) (by decide) (by decide)
    (by decide)⟩

/-- Witness for C4: calling the one-phase assembler with an empty vector. -/
theorem call_wrong_size_error_witness :
    gpe11.Nindependent = 1 + (gpe11.Ncomponents + 1) * gpe11.Nphases
    ∧ ([] : List ℚ).length ≠ gpe11.Nindependent
    ∧ (call (fun q => q) gpe11 (zeroCallResult gpe11) []).2 = some (.invalidArgument
        ("Wrong size; should be of size" ++ toString gpe11.Nindependent
          ++ "; is of size " ++ toString ([] : List ℚ).length)) :=
  ⟨by decide, by decide,
   call_wrong_size_error (fun q => q) gpe11 (zeroCallResult gpe11) [] (by decide)
    (by decide)⟩

/-- Witness for C10: a failing call from a nonzero previous state ends in the
all-zero buffer state. -/
theorem call_wrong_size_zeroes_state_witness :
    ([1, 2] : List ℚ).length ≠ gpe11.Nindependent
    ∧ ((call (fun q => q) gpe11 { r := [5], J := [[7]] } [1, 2]).1 = zeroCallResult gpe11
      ∧ (call (fun q => q) gpe11 { r := [5], J := [[7]] } [1, 2]).2 ≠ none) :=
  ⟨by decide,
   call_wrong_size_zeroes_state (fun q => q) gpe11 { r := [5], J := [[7]] } [1, 2]
    (by decide)⟩

/-- Witness for C6: two successive calls versus one call from a fresh
state. -/
theorem call_no_state_leak_witness :
    ([1, 1, 1] : List ℚ).length = gpe11.Nindependent
    ∧ ([2, 1, 1] : List ℚ).length = gpe11.Nindependent
    ∧ call (fun q => q) gpe11
        (call (fun q => q) gpe11 { r := [5], J := [[7]] } [1, 1, 1]).1 [2, 1, 1]
      = call (fun q => q) gpe11 (zeroCallResult gpe11) [2, 1, 1] :=
  ⟨by decide, by decide,
   call_no_state_leak (fun q => q) gpe11 { r := [5], J := [[7]] }
    (zeroCallResult gpe11) [1, 1, 1] [2, 1, 1] (by decide) (by decide)⟩

/-- Witness for C5: consistent one-component phases, one beta for two
phases, and a one-element specification list. -/
theorem construction_size_checks_witness :
    (([1] : List ℚ).length ≠ ([[1], [2]] : List (List ℚ)).length →
      mkGeneralizedPhaseEquilibrium zeroModel1 [1]
        { T := 300, rhovecs := [[1], [2]], betas := [1] } [.TSpecification 300]
        = .error (.invalidArgument "bad sizes for initial betas and rhovecs"))
    ∧ (([1] : List ℚ).length = ([[1], [2]] : List (List ℚ)).length →
      ([Specification.TSpecification 300] : List Specification).length ≠ 2 →
      mkGeneralizedPhaseEquilibrium zeroModel1 [1]
        { T := 300, rhovecs := [[1], [2]], betas := [1] } [.TSpecification 300]
        = .error (.invalidArgument "specification vector should be of length 2")) :=
  construction_size_checks zeroModel1 [1]
    { T := 300, rhovecs := [[1], [2]], betas := [1] } [.TSpecification 300] 1
    (by decide) (by decide) (by decide)

/-- Witness for C9 at the one-phase assembler, `x = [1,1,1]`,
`dx = [0, 1/10, 0]`. -/
theorem num_Jacobian_central_difference_witness :
    ([1, 1, 1] : List ℚ).length = gpe11.Nindependent
    ∧ ([0, 1/10, 0] : List ℚ).length = gpe11.Nindependent
    ∧ num_Jacobian (fun q => q) gpe11 [1, 1, 1] [0, 1/10, 0]
      = .ok ((List.range gpe11.Nindependent).map (fun i =>
          let dxi := if ([0, 1/10, 0] : List ℚ).getD i 0 ≠ 0
            then ([0, 1/10, 0] : List ℚ).getD i 0 else 1 / 1000000
          let rplus := (call (fun q => q) gpe11 (zeroCallResult gpe11)
            (([1, 1, 1] : List ℚ).set i (([1, 1, 1] : List ℚ).getD i 0 + dxi))).1.r
          let rminus := (call (fun q => q) gpe11 (zeroCallResult gpe11)
            (([1, 1, 1] : List ℚ).set i (([1, 1, 1] : List ℚ).getD i 0 - dxi))).1.r
          (List.range gpe11.Nindependent).map (fun k =>
            (rplus.getD k 0 - rminus.getD k 0) / (2 * dxi)))) :=
  ⟨by decide, by decide,
   num_Jacobian_central_difference (fun q => q) gpe11 (zeroCallResult gpe11)
    [1, 1, 1] [0, 1/10, 0] (by decide) (by decide)⟩

end PhaseEquil
